import Mathlib

set_option maxRecDepth 10000

/-!
Verification development for the README-updating job pipeline
(scripts/update_readme.py): CSV header mapping, embedded-HTML-table
extraction, merge/dedup, markdown rendering, and the main control flow.

Strings are modelled as Lean strings; helper operations that Python
provides (substring test, strip, lower, replace, split/join) are
embedded as executable functions over the character list of a string.
Python case-folding and whitespace are modelled at the ASCII level,
which covers every string the program manipulates in the claims.
-/

namespace UpdateReadme

/-- Decides whether the character list n is an initial segment of h
(used to model Python startswith and substring search). -/
def leadsL : List Char → List Char → Bool
  | [], _ => true
  | _ :: _, [] => false
  | a :: n, b :: h => a == b && leadsL n h

/-- Decides whether n occurs as a contiguous sublist of h. -/
def hasSubL (n : List Char) : List Char → Bool
  | [] => n.isEmpty
  | b :: h => leadsL n (b :: h) || hasSubL n h

/-- Model of the Python expression needle in hay (substring test). -/
def pyIn (needle hay : String) : Bool :=
  hasSubL needle.toList hay.toList

/-- Model of Python str.startswith. -/
def pyStartsWith (s p : String) : Bool :=
  leadsL p.toList s.toList

/-- Whitespace characters stripped by Python str.strip (ASCII part). -/
def isWs (c : Char) : Bool :=
  c == ' ' || c == '\t' || c == '\n' || c == '\r'

/-- Strip on character lists: drop leading and trailing whitespace. -/
def stripL (l : List Char) : List Char :=
  ((l.dropWhile isWs).reverse.dropWhile isWs).reverse

/-- Model of Python str.strip(). -/
def pyStrip (s : String) : String :=
  String.mk (stripL s.toList)

/-- Model of Python str.lower() (ASCII case folding). -/
def pyLower (s : String) : String :=
  String.mk (s.toList.map Char.toLower)

/-- Python dict with string keys and values, as an association list in
insertion order; assignment updates in place or appends. -/
def dictSet (d : List (String × String)) (k v : String) :
    List (String × String) :=
  match d with
  | [] => [(k, v)]
  | (k0, v0) :: t => if k0 = k then (k, v) :: t else (k0, v0) :: dictSet t k v

/-- Lookup in an association-list dict (first binding for the key). -/
def assocGet : List (String × String) → String → Option String
  | [], _ => none
  | (k0, v0) :: t, k => if k0 = k then some v0 else assocGet t k

/-- Model of Python d.get(k, default) on a string-valued dict. -/
def dictGetD (d : List (String × String)) (k dflt : String) : String :=
  match assocGet d k with
  | some v => v
  | none => dflt

/-- EXPECTED_COLUMNS from the script: canonical fields in priority
order used for case-insensitive header matching. -/
def EXPECTED_COLUMNS : List String :=
  ["company", "role", "location", "apply link"]

/-- Normalisation applied to a header name before matching:
field.lower().strip(). -/
def normField (f : String) : String :=
  pyStrip (pyLower f)

/-- Inner loop of the mapping step of parse_csv: the first canonical
field (in EXPECTED_COLUMNS order) whose name and the normalised header
name contain one another; the for-loop breaks at the first hit. -/
def findExpected (fieldLower : String) : List String → Option String
  | [] => none
  | e :: rest =>
    if pyIn e fieldLower || pyIn fieldLower e then some e
    else findExpected fieldLower rest

/-- Fold of the mapping step of parse_csv over the header names with
the dict threaded through: each header that matches some canonical
field assigns column_mapping[expected] = field. -/
def mapFold (m : List (String × String)) : List String → List (String × String)
  | [] => m
  | f :: fs =>
    mapFold
      (match findExpected (normField f) EXPECTED_COLUMNS with
        | some e => dictSet m e f
        | none => m)
      fs

/-- The column_mapping dict built by parse_csv from the header row. -/
def columnMapping (fieldnames : List String) : List (String × String) :=
  mapFold [] fieldnames

/-- Last header name in the list whose first matching canonical field
is e; this is what the fold of the mapping step actually retains. -/
def lastMatch (e : String) : List String → Option String
  | [] => none
  | f :: fs =>
    match lastMatch e fs with
    | some v => some v
    | none =>
      if findExpected (normField f) EXPECTED_COLUMNS = some e then some f
      else none

/-- First-of-two options helper used to state the fold invariant. -/
def optOr (a b : Option String) : Option String :=
  match a with
  | some v => some v
  | none => b

/-- Python exceptions that the modelled code can raise and that are
not caught by the except clauses it is wrapped in. AttributeError is
what None.strip() raises. -/
inductive PyErr where
  | attributeError
deriving DecidableEq, Repr

/-- A job record: a Python dict from field names to string values, in
insertion order. -/
abbrev Job := List (String × String)

/-- A csv.DictReader row dict: values may be Python None (restval)
when the data row is shorter than the header row. -/
abbrev Row := List (String × Option String)

/-- Assignment on a DictReader row dict. -/
def rowSet (d : Row) (k : String) (v : Option String) : Row :=
  match d with
  | [] => [(k, v)]
  | (k0, v0) :: t => if k0 = k then (k, v) :: t else (k0, v0) :: rowSet t k v

/-- Lookup of the stored value bound to a key in a row dict. -/
def rowAssocGet : Row → String → Option (Option String)
  | [], _ => none
  | (k0, v0) :: t, k => if k0 = k then some v0 else rowAssocGet t k

/-- Model of row.get(k, dflt) on a DictReader row: a present key
returns its stored value, which may be None; an absent key returns
the default. -/
def rowGet (row : Row) (k : String) (dflt : String) : Option String :=
  match rowAssocGet row k with
  | some v => v
  | none => some dflt

/-- The dict(zip(fieldnames, row)) part of csv.DictReader row
construction. -/
def zipDict (fieldnames cells : List String) : Row :=
  (List.zip fieldnames cells).foldl (fun d p => rowSet d p.1 (some p.2)) []

/-- Row dict built by csv.DictReader for one data row: zip with the
header names, and bind header names beyond the row length to the
default restval, which is None. -/
def rowDict (fieldnames cells : List String) : Row :=
  let d := zipDict fieldnames cells
  if cells.length < fieldnames.length then
    (fieldnames.drop cells.length).foldl (fun d k => rowSet d k none) d
  else d

/-- Model of value.strip() where value came from row.get: stripping a
Python None raises AttributeError. -/
def stripOptVal : Option String → Except PyErr String
  | none => Except.error PyErr.attributeError
  | some s => Except.ok (pyStrip s)

/-- Body of the per-row loop of parse_csv: for each (expected, actual)
item of column_mapping, job[expected] = row.get(actual, "").strip(). -/
def buildJobFields : Job → List (String × String) → Row → Except PyErr Job
  | job, [], _ => Except.ok job
  | job, (e, a) :: rest, row =>
    match stripOptVal (rowGet row a "") with
    | Except.error err => Except.error err
    | Except.ok v => buildJobFields (dictSet job e v) rest row

/-- Python truthiness of job.get(k): the key is present and its value
is a non-empty string. -/
def truthyGet (job : Job) (k : String) : Bool :=
  match assocGet job k with
  | some v => v ≠ ""
  | none => false

/-- Loop of parse_csv over the data rows: blank rows are skipped by
csv.DictReader, each remaining row is turned into a job dict, and a
row is kept only when job.get("company") and job.get("role") are both
truthy. -/
def parseBody (fieldnames : List String) (mapping : List (String × String)) :
    List (List String) → Except PyErr (List Job)
  | [] => Except.ok []
  | r :: rest =>
    if r = [] then parseBody fieldnames mapping rest
    else
      match buildJobFields [] mapping (rowDict fieldnames r) with
      | Except.error err => Except.error err
      | Except.ok job =>
        match parseBody fieldnames mapping rest with
        | Except.error err => Except.error err
        | Except.ok jobs =>
          Except.ok
            (if truthyGet job "company" && truthyGet job "role" then
              job :: jobs
            else jobs)

/-- Model of parse_csv. The CSV text is modelled after the csv module
has cut it into rows of cells; the first row is reader.fieldnames (an
input with no rows has fieldnames None and yields []). The result is
in Except because a data row shorter than the header makes
row.get(actual, "") return None and None.strip() raise. -/
def parse_csv (rows : List (List String)) : Except PyErr (List Job) :=
  match rows with
  | [] => Except.ok []
  | fieldnames :: body => parseBody fieldnames (columnMapping fieldnames) body

/-- Dedup key of a job: the pair of lower-cased company and role, as
computed twice inside merge_jobs. -/
abbrev JobKey := String × String

/-- Key computation of merge_jobs:
(job.get("company", "").lower(), job.get("role", "").lower()). -/
def jobKey (j : Job) : JobKey :=
  (pyLower (dictGetD j "company" ""), pyLower (dictGetD j "role" ""))

/-- Loop body shared by the two loops of merge_jobs: skip a job whose
key was seen, otherwise mark the key seen and append the job. -/
def mergeStep (st : List JobKey × List Job) (job : Job) :
    List JobKey × List Job :=
  if jobKey job ∈ st.1 then st else (jobKey job :: st.1, st.2 ++ [job])

/-- Model of merge_jobs: fold the sheet jobs first, then the
SimplifyJobs entries, through the shared seen-set state. -/
def merge_jobs (sheet_jobs simplify_jobs : List Job) : List Job :=
  let st1 := sheet_jobs.foldl mergeStep ([], [])
  let st2 := simplify_jobs.foldl mergeStep st1
  st2.2

/-- The jobs a run of the merge loop appends when started with the
given seen set. -/
def dedupNew (seen : List JobKey) : List Job → List Job
  | [] => []
  | j :: rest =>
    if jobKey j ∈ seen then dedupNew seen rest
    else j :: dedupNew (jobKey j :: seen) rest

/-- The seen set after a run of the merge loop. -/
def seenAfter (seen : List JobKey) : List Job → List JobKey
  | [] => seen
  | j :: rest =>
    if jobKey j ∈ seen then seenAfter seen rest
    else seenAfter (jobKey j :: seen) rest

/-- Index of the first occurrence of n in the haystack, as returned by
Python str.find (None standing for the -1 result). -/
def findSubIdx (n : List Char) : List Char → Option Nat
  | [] => if n.isEmpty then some 0 else none
  | c :: t => if leadsL n (c :: t) then some 0 else (findSubIdx n t).map (· + 1)

/-- Index of the first closing angle bracket, used to model the forced
greedy part of the patterns that read tag attributes. -/
def idxOfGt : List Char → Option Nat
  | [] => none
  | c :: t => if c = '>' then some 0 else (idxOfGt t).map (· + 1)

def trOpen : List Char := "<tr>".toList

def trClose : List Char := "</tr>".toList

def tdClose : List Char := "</td>".toList

/-- Model of re.finditer over the tr pattern with DOTALL: repeatedly
take the text between the next literal row-open tag and the first
row-close tag after it; the lazy group makes each match end at the
first close tag, and matches are non-overlapping. The fuel argument
only bounds the recursion and is always sufficient at the wrapper. -/
def extractRowsF : Nat → List Char → List (List Char)
  | 0, _ => []
  | fuel + 1, hay =>
    match findSubIdx trOpen hay with
    | none => []
    | some i =>
      let after := hay.drop (i + 4)
      match findSubIdx trClose after with
      | none => []
      | some j => after.take j :: extractRowsF fuel (after.drop (j + 5))

def extractRows (hay : List Char) : List (List Char) :=
  extractRowsF hay.length hay

/-- Length of a cell-open tag match starting at the head of l: literal
open bracket and td, any run of non-bracket attribute characters, then
the closing bracket. -/
def tdOpenLen (l : List Char) : Option Nat :=
  if leadsL ("<td".toList) l then
    match idxOfGt (l.drop 3) with
    | none => none
    | some k => some (3 + k + 1)
  else none

/-- Index just past the open tag of the leftmost cell match. -/
def findTdOpen : List Char → Option Nat
  | [] => none
  | c :: t =>
    match tdOpenLen (c :: t) with
    | some len => some len
    | none => (findTdOpen t).map (· + 1)

/-- Model of re.findall over the td pattern with DOTALL: the captured
cell contents in order, each ending at the first cell-close tag. -/
def extractCellsF : Nat → List Char → List (List Char)
  | 0, _ => []
  | fuel + 1, hay =>
    match findTdOpen hay with
    | none => []
    | some contStart =>
      let after := hay.drop contStart
      match findSubIdx tdClose after with
      | none => []
      | some j => after.take j :: extractCellsF fuel (after.drop (j + 5))

def extractCells (hay : List Char) : List (List Char) :=
  extractCellsF hay.length hay

/-- Length of a tag match at the head of l for the tag-stripping
pattern: an open bracket, at least one non-bracket character, and a
close bracket. -/
def tagLenAt (l : List Char) : Option Nat :=
  match l with
  | '<' :: rest =>
    (match idxOfGt rest with
      | none => none
      | some k => if k = 0 then none else some (k + 2))
  | _ => none

/-- Model of re.sub removing tag-like markup: scan left to right, drop
every leftmost non-overlapping tag match, keep other characters. -/
def stripTagsF : Nat → List Char → List Char
  | 0, l => l
  | _ + 1, [] => []
  | fuel + 1, c :: t =>
    match tagLenAt (c :: t) with
    | some len => stripTagsF fuel ((c :: t).drop len)
    | none => c :: stripTagsF fuel t

def stripTags (l : List Char) : List Char :=
  stripTagsF l.length l

/-- Match of the company pattern at the head of l: an anchor-open tag
(bracket, letter a, attribute run, close bracket), then a non-empty
captured run of non-bracket characters, then the anchor-close tag.
Returns the captured group. -/
def aTextAt (l : List Char) : Option (List Char) :=
  if leadsL ("<a".toList) l then
    match idxOfGt (l.drop 2) with
    | none => none
    | some k =>
      let content := (l.drop 2).drop (k + 1)
      let run := content.takeWhile (fun c => c != '<')
      if run.isEmpty then none
      else if leadsL ("</a>".toList) (content.drop run.length) then some run
      else none
  else none

/-- Model of re.search for the company pattern: leftmost match. -/
def searchAText : List Char → Option (List Char)
  | [] => none
  | c :: t =>
    match aTextAt (c :: t) with
    | some r => some r
    | none => searchAText t

/-- Match of the literal href attribute with a non-empty quoted value
at the head of l; returns the captured value. -/
def checkHrefAt (l : List Char) : Option (List Char) :=
  if leadsL ("href=\"".toList) l then
    let content := (l.drop 6).takeWhile (fun c => c != '"')
    if content.isEmpty then none
    else if leadsL ['"'] ((l.drop 6).drop content.length) then some content
    else none
  else none

/-- Greedy backtracking for the attribute run before the href literal:
try the longest permitted run first, shrinking until a match. -/
def tryHrefGreedy (rest : List Char) : Nat → Option (List Char)
  | 0 => checkHrefAt rest
  | j + 1 =>
    match checkHrefAt (rest.drop (j + 1)) with
    | some url => some url
    | none => tryHrefGreedy rest j

/-- Match of the apply-link pattern at the head of l: anchor-open
bracket and letter a, a greedy run of non-bracket characters, then the
href literal and its quoted value. -/
def hrefAt (l : List Char) : Option (List Char) :=
  if leadsL ("<a".toList) l then
    let rest := l.drop 2
    let run := rest.takeWhile (fun c => c != '>')
    tryHrefGreedy rest run.length
  else none

/-- Model of re.search for the apply-link pattern: leftmost match. -/
def searchHref : List Char → Option (List Char)
  | [] => none
  | c :: t =>
    match hrefAt (c :: t) with
    | some r => some r
    | none => searchHref t

/-- Closed-position marker literal exactly as written in the source: the
code checks this mojibake character sequence, not the genuine lock
glyph. -/
def lockGlyph : String := "ðŸ”’"

/-- First continuation-marker substring checked by the source, with the
arrow as the mojibake sequence written there. -/
def arrowMid : String := ">â†³<"

/-- Second continuation-marker substring checked by the source, with the
arrow as the mojibake sequence written there. -/
def arrowCell : String := "<td>â†³</td>"

/-- Body of the per-row loop of fetch_simplify_hardware_jobs: skip
rows carrying the closed glyph, skip continuation rows, extract the
cells, require at least four, read company, role, location and apply
link, and keep the row only when company and role are non-empty. -/
def processRow (row : String) : Option Job :=
  if pyIn lockGlyph row then none
  else if pyIn arrowMid row || pyIn arrowCell row then none
  else
    let cells := extractCells row.toList
    if cells.length < 4 then none
    else
      let company :=
        match searchAText (cells.getD 0 []) with
        | some r => pyStrip (String.mk r)
        | none => ""
      let role := pyStrip (String.mk (stripTags (cells.getD 1 [])))
      let location := pyStrip (String.mk (stripTags (cells.getD 2 [])))
      let applyUrl :=
        match searchHref (cells.getD 3 []) with
        | some r => pyStrip (String.mk r)
        | none => ""
      if company ≠ "" ∧ role ≠ "" then
        some [("company", company), ("role", role),
          ("location", location), ("apply link", applyUrl)]
      else none

/-- Section header literal searched for in the SimplifyJobs README,
exactly as written in the source (the decorative glyph is a mojibake
sequence there). -/
def simplifyHeader : String := "## ðŸ”§ Hardware Engineering"

/-- Parsing part of fetch_simplify_hardware_jobs: locate the hardware
section, delimit it at the next second-level header, and extract one
job per surviving table row. -/
def parseSimplify (readme : String) : List Job :=
  match findSubIdx simplifyHeader.toList readme.toList with
  | none => []
  | some hwStart =>
    let afterHeader := hwStart + simplifyHeader.length
    let sectionChars :=
      match findSubIdx ("\n## ".toList) (readme.toList.drop afterHeader) with
      | none => readme.toList.drop hwStart
      | some off => (readme.toList.drop hwStart).take (simplifyHeader.length + off)
    (extractRows sectionChars).filterMap (fun r => processRow (String.mk r))

/-- Model of fetch_simplify_hardware_jobs, with the network fetch as
an input: a transport failure is caught and yields no records. -/
def fetch_simplify (fetched : Except Unit String) : List Job :=
  match fetched with
  | Except.error _ => []
  | Except.ok readme => parseSimplify readme

/-- Escape of the pipe character performed on company, role and
location before interpolation into the table row. -/
def escPipesL : List Char → List Char
  | [] => []
  | c :: t => if c = '|' then '\\' :: '|' :: escPipesL t else c :: escPipesL t

/-- Model of field.replace on the pipe character. -/
def pyEscPipes (s : String) : String :=
  String.mk (escPipesL s.toList)

def README_HEADER_PRE : String :=
  "# Hardware Internships\n\nA curated list of hardware engineering internships.\n\n**Last updated:** "

def README_HEADER_POST : String := "\n\n---\n\n"

def README_TABLE_HEADER : String :=
  "| Company | Role | Location | Apply |\n|---------|------|----------|-------|\n"

def PROMO_LINE : String :=
  "âœ¨ Preparing for hardware interviews? Check out [LogiCode](https://logi-code.com/)! âœ¨\n\n"

def NO_LISTINGS : String := "*No internship listings available yet.*\n"

/-- Model of generate_table_row: pipes are escaped in company, role
and location; the apply link is interpolated as-is into an anchor
cell, or an em-dash placeholder when empty. -/
def generate_table_row (job : Job) : String :=
  let company := pyEscPipes (dictGetD job "company" "")
  let role := pyEscPipes (dictGetD job "role" "")
  let location := pyEscPipes (dictGetD job "location" "")
  let applyLink := dictGetD job "apply link" ""
  let applyCell :=
    if applyLink ≠ "" then
      "<a href=\"" ++ applyLink ++ "\" target=\"_blank\">Apply</a>"
    else "â€”"
  "| " ++ company ++ " | " ++ role ++ " | " ++ location ++ " | " ++ applyCell ++ " |\n"

/-- Model of generate_readme with the generated timestamp string as an
input: header block, then either the promo line, section header, table
header and one row per job, or the fixed no-listings placeholder. -/
def generate_readme (now : String) (jobs : List Job) : String :=
  let readme := README_HEADER_PRE ++ now ++ README_HEADER_POST
  if jobs ≠ [] then
    jobs.foldl (fun acc job => acc ++ generate_table_row job)
      (readme ++ PROMO_LINE ++ "## Internships\n\n" ++ README_TABLE_HEADER)
  else readme ++ NO_LISTINGS

/-- Split on the newline character, as content.split there. -/
def splitNlL : List Char → List (List Char)
  | [] => [[]]
  | c :: t =>
    if c = '\n' then [] :: splitNlL t
    else
      match splitNlL t with
      | [] => [[c]]
      | l :: ls => (c :: l) :: ls

/-- Join with the newline character, as the join there. -/
def joinNlL : List (List Char) → List Char
  | [] => []
  | [l] => l
  | l :: ls => l ++ '\n' :: joinNlL ls

/-- Fixed literal identifying the timestamp line. -/
def TIMESTAMP_PREFIX : String := "**Last updated:**"

/-- Model of the strip_timestamp helper in main: drop every line that
starts with the timestamp literal and rejoin. -/
def strip_timestamp (content : String) : String :=
  String.mk (joinNlL ((splitNlL content.toList).filter
    (fun line => !(leadsL TIMESTAMP_PREFIX.toList line))))

/-- Observable outcome of a run of main: the exit code and the content
written to the output file, if any. -/
structure MainOut where
  exit : Nat
  wrote : Option String
deriving DecidableEq, Repr

/-- Environment of one run of main: the configured sheet URL, the two
network results, the previous document, and the generated timestamp. -/
structure Env where
  sheetUrl : String
  sheetFetch : Except Unit (List (List String))
  simplifyFetch : Except Unit String
  existing : Option String
  now : String

/-- The previous document content read back by main: the file content
when the file exists, the empty string otherwise. -/
def existingOf (env : Env) : String :=
  match env.existing with
  | some c => c
  | none => ""

/-- The sheet contribution in main: skipped when the URL is unset, a
transport failure is caught and yields no records, and parse_csv runs
inside the same try block but its AttributeError is not of the caught
class and propagates. -/
def sheetJobsOf (env : Env) : Except PyErr (List Job) :=
  if env.sheetUrl ≠ "" then
    match env.sheetFetch with
    | Except.error _ => Except.ok []
    | Except.ok rows => parse_csv rows
  else Except.ok []

/-- The merged record list main computes, unless a parse error
escaped. -/
def obtainedJobs (env : Env) : Except PyErr (List Job) :=
  match sheetJobsOf env with
  | Except.error e => Except.error e
  | Except.ok sheetJobs =>
    Except.ok (merge_jobs sheetJobs (fetch_simplify env.simplifyFetch))

/-- Model of main: merge the two contributions, exit 1 when nothing
was obtained, render, compare with the previous document modulo the
timestamp line, and either skip the write (exit 0) or write the new
content (exit 0). -/
def mainModel (env : Env) : Except PyErr MainOut :=
  match obtainedJobs env with
  | Except.error e => Except.error e
  | Except.ok jobs =>
    if jobs = [] then Except.ok { exit := 1, wrote := none }
    else
      let content := generate_readme env.now jobs
      if strip_timestamp (existingOf env) = strip_timestamp content then
        Except.ok { exit := 0, wrote := none }
      else Except.ok { exit := 0, wrote := some content }

/-- Unescaped pipes of a rendered line under the markdown reading in
which a backslash escapes the next character: the count of pipe
characters that actually separate table cells. -/
def rawPipes : List Char → Nat
  | [] => 0
  | [c] => if c = '|' then 1 else 0
  | c :: c2 :: t =>
    if c = '\\' then rawPipes t
    else if c = '|' then rawPipes (c2 :: t) + 1
    else rawPipes (c2 :: t)

/-- A job as extracted from the sample SimplifyJobs row below. -/
def theJob : Job :=
  [("company", "Acme"), ("role", "HW Intern"), ("location", "Remote"),
    ("apply link", "http://x")]

/-- A minimal SimplifyJobs README with the hardware section and one
open row. -/
def simpleSimplifyDoc : String :=
  "## ðŸ”§ Hardware Engineering\n<tr><td><a href=\"http://x\">Acme</a></td><td>HW Intern</td><td>Remote</td><td><a href=\"http://x\">Apply</a></td></tr>"

/-- A run with no sheet URL configured and one job from the other
source. -/
def envAbsentUrl : Env :=
  { sheetUrl := "", sheetFetch := Except.error (),
    simplifyFetch := Except.ok simpleSimplifyDoc, existing := none,
    now := "2026-10-12 00:00 UTC" }

/-- The outcome of the run with no sheet URL configured. -/
def outAbsentUrl : MainOut :=
  { exit := 0, wrote := some (generate_readme "2026-10-12 00:00 UTC" [theJob]) }

/-- A run whose previous document equals the new one up to the
timestamp line. -/
def envPrevSame : Env :=
  { sheetUrl := "", sheetFetch := Except.error (),
    simplifyFetch := Except.ok simpleSimplifyDoc,
    existing := some (generate_readme "2020-01-01 00:00 UTC" [theJob]),
    now := "2026-10-12 00:00 UTC" }

/-- A run where the hardware section header is present but the section
holds no table rows, and the sheet contributes nothing. -/
def envHeaderNoRows : Env :=
  { sheetUrl := "", sheetFetch := Except.error (),
    simplifyFetch := Except.ok "## ðŸ”§ Hardware Engineering\nno table rows here",
    existing := none, now := "t" }

/-- A run where both sources fail at transport level. -/
def envBothFail : Env :=
  { sheetUrl := "", sheetFetch := Except.error (),
    simplifyFetch := Except.error (), existing := none, now := "t" }

/-- A run whose sheet CSV has a data row shorter than the header. -/
def envShortRow : Env :=
  { sheetUrl := "u", sheetFetch := Except.ok [["Company", "Role"], ["Acme"]],
    simplifyFetch := Except.error (), existing := none, now := "t" }

/-- Sheet-source job used in the merge witnesses. -/
def jobSheet : Job :=
  [("company", "Acme"), ("role", "HW Intern"), ("location", "Sheet Town")]

/-- Duplicate of jobSheet up to case, from the lower-priority source. -/
def jobDup : Job :=
  [("company", "ACME"), ("role", "hw intern"), ("location", "Other Town")]

/-- An unrelated job from the lower-priority source. -/
def jobOther : Job :=
  [("company", "Beta"), ("role", "Intern")]

/-- A job whose apply link holds a pipe character. -/
def jobPipeLink : Job :=
  [("company", "A"), ("role", "R"), ("location", "L"),
    ("apply link", "http://x|y")]

/-- A job whose location holds a pipe character. -/
def jobLocPipe : Job :=
  [("company", ""), ("role", ""), ("location", "A|B"), ("apply link", "")]

/-- A predicate for claim C9: the record binds company and role to
values that are non-empty even after another trim. -/
def validJob (j : Job) : Prop :=
  ∃ c r, assocGet j "company" = some c ∧ assocGet j "role" = some r ∧
    pyStrip c ≠ "" ∧ pyStrip r ≠ ""

theorem assocGet_dictSet (d : List (String × String)) (k v k1 : String) :
    assocGet (dictSet d k v) k1 = if k = k1 then some v else assocGet d k1 := by
  induction d with
  | nil =>
    by_cases h : k = k1 <;> simp [dictSet, assocGet, h]
  | cons p t ih =>
    obtain ⟨k0, v0⟩ := p
    by_cases h0 : k0 = k
    · subst h0
      by_cases h : k0 = k1 <;> simp [dictSet, assocGet, h]
    · by_cases h : k = k1
      · subst h
        simp [dictSet, assocGet, h0, ih]
      · by_cases h1 : k0 = k1
        · subst h1
          have hne : ¬k0 = k := h0
          have hne1 : ¬(k0 = k) := h0
          simp [dictSet, assocGet, hne1, ih, h]
        · simp [dictSet, assocGet, h0, h1, ih, h]

theorem mapFold_assocGet (fs : List String) (m : List (String × String))
    (e : String) :
    assocGet (mapFold m fs) e = optOr (lastMatch e fs) (assocGet m e) := by
  induction fs generalizing m with
  | nil => simp [mapFold, lastMatch, optOr]
  | cons f fs ih =>
    rw [mapFold, ih]
    cases hlast : lastMatch e fs with
    | some v => simp [lastMatch, hlast, optOr]
    | none =>
      cases hfe : findExpected (normField f) EXPECTED_COLUMNS with
      | none => simp [lastMatch, hlast, hfe, optOr]
      | some e0 =>
        by_cases he : e0 = e
        · subst he
          simp [lastMatch, hlast, hfe, optOr, assocGet_dictSet]
        · have : ¬e0 = e := he
          simp [lastMatch, hlast, hfe, optOr, assocGet_dictSet, this]

theorem foldl_mergeStep (ls : List Job) (seen : List JobKey) (acc : List Job) :
    ls.foldl mergeStep (seen, acc) =
      (seenAfter seen ls, acc ++ dedupNew seen ls) := by
  induction ls generalizing seen acc with
  | nil => simp [seenAfter, dedupNew]
  | cons j rest ih =>
    by_cases h : jobKey j ∈ seen
    · simp [mergeStep, h, ih, seenAfter, dedupNew]
    · simp [mergeStep, h, ih, seenAfter, dedupNew]

theorem dedupNew_append (xs ys : List Job) (seen : List JobKey) :
    dedupNew seen (xs ++ ys) =
      dedupNew seen xs ++ dedupNew (seenAfter seen xs) ys := by
  induction xs generalizing seen with
  | nil => simp [dedupNew, seenAfter]
  | cons j rest ih =>
    by_cases h : jobKey j ∈ seen
    · simp [dedupNew, seenAfter, h, ih]
    · simp [dedupNew, seenAfter, h, ih]

theorem merge_jobs_eq_dedupNew (s t : List Job) :
    merge_jobs s t = dedupNew [] (s ++ t) := by
  rw [merge_jobs, dedupNew_append]
  simp [foldl_mergeStep]

theorem dedupNew_sublist (l : List Job) (seen : List JobKey) :
    (dedupNew seen l).Sublist l := by
  induction l generalizing seen with
  | nil => simp [dedupNew]
  | cons j rest ih =>
    by_cases h : jobKey j ∈ seen
    · rw [dedupNew]
      simp only [h, if_true]
      exact List.Sublist.cons j (ih seen)
    · rw [dedupNew]
      simp only [h, if_false]
      exact List.Sublist.cons₂ j (ih (jobKey j :: seen))

theorem dedupNew_keys_nodup (l : List Job) (seen : List JobKey) :
    ((dedupNew seen l).map jobKey).Nodup ∧
      ∀ k ∈ (dedupNew seen l).map jobKey, k ∉ seen := by
  induction l generalizing seen with
  | nil => simp [dedupNew]
  | cons j rest ih =>
    by_cases h : jobKey j ∈ seen
    · rw [dedupNew]
      simp only [h, if_true]
      exact ih seen
    · rw [dedupNew]
      simp only [h, if_false]
      obtain ⟨ihnd, ihaway⟩ := ih (jobKey j :: seen)
      constructor
      · simp only [List.map_cons, List.nodup_cons]
        constructor
        · intro hmem
          exact (ihaway _ hmem) (List.mem_cons_self _ _)
        · exact ihnd
      · intro k hk
        simp only [List.map_cons, List.mem_cons] at hk
        cases hk with
        | inl he => rw [he]; exact h
        | inr hm =>
          intro hin
          exact (ihaway k hm) (List.mem_cons_of_mem _ hin)

theorem dedupNew_first (l : List Job) (seen : List JobKey) :
    ∀ j0 ∈ dedupNew seen l, jobKey j0 ∉ seen ∧
      l.find? (fun j => decide (jobKey j = jobKey j0)) = some j0 := by
  induction l generalizing seen with
  | nil => simp [dedupNew]
  | cons j rest ih =>
    intro j0 hj0
    by_cases h : jobKey j ∈ seen
    · rw [dedupNew] at hj0
      simp only [h, if_true] at hj0
      obtain ⟨haway, hfind⟩ := ih seen j0 hj0
      refine ⟨haway, ?_⟩
      rw [List.find?_cons_of_neg, hfind]
      simp only [decide_eq_true_eq]
      intro heq
      exact haway (heq ▸ h)
    · rw [dedupNew] at hj0
      simp only [h, if_false, List.mem_cons] at hj0
      cases hj0 with
      | inl he =>
        subst he
        refine ⟨h, ?_⟩
        rw [List.find?_cons_of_pos]
        simp
      | inr hm =>
        obtain ⟨haway, hfind⟩ := ih (jobKey j :: seen) j0 hm
        have hne : jobKey j ≠ jobKey j0 := by
          intro heq
          exact haway (heq ▸ List.mem_cons_self _ _)
        refine ⟨fun hin => haway (List.mem_cons_of_mem _ hin), ?_⟩
        rw [List.find?_cons_of_neg, hfind]
        simp only [decide_eq_true_eq]
        exact hne

theorem dedupNew_covers (l : List Job) (seen : List JobKey) :
    ∀ j ∈ l, jobKey j ∈ seen ∨ ∃ j0 ∈ dedupNew seen l, jobKey j0 = jobKey j := by
  induction l generalizing seen with
  | nil => simp
  | cons j1 rest ih =>
    intro j hj
    by_cases h : jobKey j1 ∈ seen
    · rw [dedupNew]
      simp only [h, if_true]
      cases List.mem_cons.mp hj with
      | inl he => subst he; exact Or.inl h
      | inr hm => exact ih seen j hm
    · rw [dedupNew]
      simp only [h, if_false]
      cases List.mem_cons.mp hj with
      | inl he =>
        subst he
        exact Or.inr ⟨j, List.mem_cons_self _ _, rfl⟩
      | inr hm =>
        cases ih (jobKey j1 :: seen) j hm with
        | inl hin =>
          cases List.mem_cons.mp hin with
          | inl he => exact Or.inr ⟨j1, List.mem_cons_self _ _, he.symm⟩
          | inr hs => exact Or.inl hs
        | inr hex =>
          obtain ⟨j0, hj0, hk⟩ := hex
          exact Or.inr ⟨j0, List.mem_cons_of_mem _ hj0, hk⟩

theorem stripL_eq_rdropWhile (l : List Char) :
    stripL l = List.rdropWhile isWs (List.dropWhile isWs l) := rfl

theorem dropWhile_head_false {p : Char → Bool} :
    ∀ (l : List Char) {a : Char} {t : List Char},
      List.dropWhile p l = a :: t → p a = false := by
  intro l
  induction l with
  | nil => intro a t h; simp [List.dropWhile] at h
  | cons c l ih =>
    intro a t h
    rw [List.dropWhile_cons] at h
    by_cases hc : p c
    · rw [if_pos hc] at h
      exact ih h
    · rw [if_neg hc] at h
      injection h with h1 h2
      subst h1
      simpa using hc

theorem stripL_idem (l : List Char) : stripL (stripL l) = stripL l := by
  set m := List.dropWhile isWs l with hm
  have hdw : List.dropWhile isWs (List.rdropWhile isWs m) = List.rdropWhile isWs m := by
    rcases hrd : List.rdropWhile isWs m with _ | ⟨a, t2⟩
    · rfl
    · obtain ⟨t, ht⟩ := List.rdropWhile_prefix isWs m
      rw [hrd] at ht
      have hm2 : List.dropWhile isWs l = a :: (t2 ++ t) := by
        rw [← hm, ← ht]
        rfl
      have hfalse : isWs a = false := dropWhile_head_false l hm2
      simp [List.dropWhile_cons, hfalse]
  rw [stripL_eq_rdropWhile (stripL l)]
  have hx : stripL l = List.rdropWhile isWs m := by
    rw [stripL_eq_rdropWhile, hm]
  rw [hx, hdw, List.rdropWhile_idempotent]

theorem pyStrip_idem (s : String) : pyStrip (pyStrip s) = pyStrip s := by
  unfold pyStrip
  exact congrArg String.mk (stripL_idem s.toList)

theorem mk_ne_empty {l : List Char} (h : l ≠ []) :
    String.mk l ≠ "" := by
  intro hc
  exact h (congrArg String.data hc)

theorem pyStrip_pyStrip_ne {s : String} (h : pyStrip s ≠ "") :
    pyStrip (pyStrip s) ≠ "" := by
  rw [pyStrip_idem]
  exact h

theorem rawPipes_esc (c2 : Char) (t : List Char) :
    rawPipes ('\\' :: c2 :: t) = rawPipes t := by
  simp [rawPipes]

theorem rawPipes_pipe (t : List Char) :
    rawPipes ('|' :: t) = rawPipes t + 1 := by
  cases t <;> simp [rawPipes]

theorem rawPipes_other {c : Char} (h1 : c ≠ '\\') (h2 : c ≠ '|')
    (t : List Char) : rawPipes (c :: t) = rawPipes t := by
  cases t <;> simp [rawPipes, h1, h2]

theorem rawPipes_append_safe {l : List Char} (r : List Char)
    (h : ∀ c ∈ l, c ≠ '\\' ∧ c ≠ '|') :
    rawPipes (l ++ r) = rawPipes r := by
  induction l with
  | nil => simp
  | cons c t ih =>
    have hc := h c (List.mem_cons_self _ _)
    rw [List.cons_append, rawPipes_other hc.1 hc.2]
    exact ih (fun x hx => h x (List.mem_cons_of_mem _ hx))

theorem rawPipes_escPipes {l : List Char} (r : List Char)
    (h : '\\' ∉ l) :
    rawPipes (escPipesL l ++ r) = rawPipes r := by
  induction l with
  | nil => simp [escPipesL]
  | cons c t ih =>
    have hc : c ≠ '\\' := fun he => h (he ▸ List.mem_cons_self _ _)
    have ht : '\\' ∉ t := fun hm => h (List.mem_cons_of_mem _ hm)
    by_cases hp : c = '|'
    · subst hp
      have he : escPipesL ('|' :: t) = '\\' :: '|' :: escPipesL t := by
        simp [escPipesL]
      rw [he, List.cons_append, List.cons_append, rawPipes_esc]
      exact ih ht
    · have he : escPipesL (c :: t) = c :: escPipesL t := by
        simp [escPipesL, hp]
      rw [he, List.cons_append, rawPipes_other hc hp]
      exact ih ht

theorem toList_append (a b : String) :
    (a ++ b).toList = a.toList ++ b.toList := rfl

theorem toList_escPipes (s : String) :
    (pyEscPipes s).toList = escPipesL s.toList := rfl

theorem rawPipes_open (X : List Char) :
    rawPipes ("| ".toList ++ X) = rawPipes X + 1 := by
  show rawPipes ('|' :: ' ' :: X) = rawPipes X + 1
  rw [rawPipes_pipe, rawPipes_other (by decide) (by decide)]

theorem rawPipes_mid (X : List Char) :
    rawPipes (" | ".toList ++ X) = rawPipes X + 1 := by
  show rawPipes (' ' :: '|' :: ' ' :: X) = rawPipes X + 1
  rw [rawPipes_other (by decide) (by decide), rawPipes_pipe,
    rawPipes_other (by decide) (by decide)]

theorem rawPipes_rowTail : rawPipes (" |\n".toList) = 1 := by decide

theorem rawPipes_row (job : Job)
    (hc : '\\' ∉ (dictGetD job "company" "").toList)
    (hr : '\\' ∉ (dictGetD job "role" "").toList)
    (hl : '\\' ∉ (dictGetD job "location" "").toList)
    (ha1 : '\\' ∉ (dictGetD job "apply link" "").toList)
    (ha2 : '|' ∉ (dictGetD job "apply link" "").toList) :
    rawPipes (generate_table_row job).toList = 5 := by
  have hlink : ∀ c ∈ (dictGetD job "apply link" "").toList,
      c ≠ '\\' ∧ c ≠ '|' := by
    intro c hm
    exact ⟨fun he => ha1 (he ▸ hm), fun he => ha2 (he ▸ hm)⟩
  unfold generate_table_row
  dsimp only
  set link := dictGetD job "apply link" "" with hlinkdef
  by_cases hemp : link = ""
  · rw [if_neg (not_not_intro hemp)]
    simp only [toList_append, List.append_assoc, toList_escPipes]
    rw [rawPipes_open, rawPipes_escPipes _ hc, rawPipes_mid,
      rawPipes_escPipes _ hr, rawPipes_mid, rawPipes_escPipes _ hl,
      rawPipes_mid,
      rawPipes_append_safe (l := "â€”".toList) _ (by decide),
      rawPipes_rowTail]
  · rw [if_pos hemp]
    simp only [toList_append, List.append_assoc, toList_escPipes]
    rw [rawPipes_open, rawPipes_escPipes _ hc, rawPipes_mid,
      rawPipes_escPipes _ hr, rawPipes_mid, rawPipes_escPipes _ hl,
      rawPipes_mid,
      rawPipes_append_safe (l := "<a href=\"".toList) _ (by decide),
      rawPipes_append_safe (l := link.toList) _ hlink,
      rawPipes_append_safe (l := "\" target=\"_blank\">Apply</a>".toList) _
        (by decide),
      rawPipes_rowTail]

theorem processRow_valid (row : String) (j : Job)
    (h : processRow row = some j) : validJob j := by
  unfold processRow at h
  dsimp only at h
  split at h
  · exact Option.noConfusion h
  · split at h
    · exact Option.noConfusion h
    · split at h
      · exact Option.noConfusion h
      · split at h
        · rename_i hcond
          injection h with hj
          subst hj
          obtain ⟨hcne, hrne⟩ := hcond
          refine ⟨_, _, rfl, rfl, ?_, ?_⟩
          · cases hse : searchAText ((extractCells row.toList).getD 0 []) with
            | none =>
              rw [hse] at hcne
              simp at hcne
            | some r =>
              rw [hse] at hcne
              exact pyStrip_pyStrip_ne hcne
          · exact pyStrip_pyStrip_ne hrne
        · exact Option.noConfusion h

theorem buildJobFields_stripped :
    ∀ (m : List (String × String)) (job0 : Job) (row : Row) (job : Job),
      buildJobFields job0 m row = Except.ok job →
      (∀ k v, assocGet job0 k = some v → pyStrip v = v) →
      ∀ k v, assocGet job k = some v → pyStrip v = v := by
  intro m
  induction m with
  | nil =>
    intro job0 row job h h0
    injection h with h1
    subst h1
    exact h0
  | cons ea rest ih =>
    intro job0 row job h h0
    obtain ⟨e, a⟩ := ea
    simp only [buildJobFields] at h
    cases hs : stripOptVal (rowGet row a "") with
    | error err =>
      rw [hs] at h
      exact Except.noConfusion h
    | ok v0 =>
      rw [hs] at h
      have hv0 : pyStrip v0 = v0 := by
        cases hrg : rowGet row a "" with
        | none =>
          rw [hrg] at hs
          exact Except.noConfusion hs
        | some s =>
          rw [hrg] at hs
          injection hs with h2
          rw [← h2, pyStrip_idem]
      refine ih (dictSet job0 e v0) row job h ?_
      intro k v hkv
      rw [assocGet_dictSet] at hkv
      by_cases hek : e = k
      · rw [if_pos hek] at hkv
        injection hkv with h3
        rw [← h3]
        exact hv0
      · rw [if_neg hek] at hkv
        exact h0 k v hkv

theorem truthy_exists {job : Job} {k : String}
    (h : truthyGet job k = true) :
    ∃ v, assocGet job k = some v ∧ v ≠ "" := by
  unfold truthyGet at h
  cases hv : assocGet job k with
  | none =>
    rw [hv] at h
    exact Bool.noConfusion h
  | some v =>
    rw [hv] at h
    refine ⟨v, rfl, ?_⟩
    simpa using h

theorem parseBody_valid (fn : List String) (m : List (String × String)) :
    ∀ (body : List (List String)) (out : List Job),
      parseBody fn m body = Except.ok out → ∀ j ∈ out, validJob j := by
  intro body
  induction body with
  | nil =>
    intro out h j hj
    injection h with h1
    rw [← h1] at hj
    simp at hj
  | cons r rest ih =>
    intro out h j hj
    by_cases hre : r = []
    · simp only [parseBody, if_pos hre] at h
      exact ih out h j hj
    · simp only [parseBody, if_neg hre] at h
      cases hb : buildJobFields [] m (rowDict fn r) with
      | error e =>
        rw [hb] at h
        exact Except.noConfusion h
      | ok job =>
        rw [hb] at h
        cases hrest : parseBody fn m rest with
        | error e =>
          rw [hrest] at h
          exact Except.noConfusion h
        | ok jobs2 =>
          rw [hrest] at h
          injection h with h1
          rw [← h1] at hj
          by_cases htr : (truthyGet job "company" && truthyGet job "role") = true
          · rw [if_pos htr] at hj
            cases List.mem_cons.mp hj with
            | inl he =>
              rw [Bool.and_eq_true] at htr
              obtain ⟨ht1, ht2⟩ := htr
              have hst := buildJobFields_stripped m [] (rowDict fn r) job hb
                (by intro k v hkv; simp [assocGet] at hkv)
              obtain ⟨c, hcg, hcne⟩ := truthy_exists ht1
              obtain ⟨ro, hrg, hrne⟩ := truthy_exists ht2
              rw [he]
              refine ⟨c, ro, hcg, hrg, ?_, ?_⟩
              · rw [hst _ _ hcg]
                exact hcne
              · rw [hst _ _ hrg]
                exact hrne
            | inr hm => exact ih jobs2 hrest j hm
          · rw [if_neg htr] at hj
            exact ih jobs2 hrest j hj

/-- Claim C1 is refuted: for the header row with the two columns
Company and Company Name, the mapping step assigns the canonical field
company to the later Company Name column, not to the first matching
column, because the assignment never checks whether the canonical
field already claimed a column. -/
theorem claim_C1_counterexample :
    assocGet (columnMapping ["Company", "Company Name"]) "company" ≠
      some "Company" := by
  decide

/-- Claim C1 (amended): each header column is assigned to the first
canonical field in priority order that matches it under the
case-insensitive bidirectional substring test, regardless of whether
that field already claimed a column; hence a canonical field ends up
mapped to the last header column (in order of appearance) whose first
matching canonical field it is, and for the header Company, Company
Name the canonical field company is mapped to the Company Name
column. -/
theorem claim_C1_amended :
    (∀ fs e, assocGet (columnMapping fs) e = lastMatch e fs) ∧
    assocGet (columnMapping ["Company", "Company Name"]) "company" =
      some "Company Name" := by
  constructor
  · intro fs e
    rw [columnMapping, mapFold_assocGet]
    cases lastMatch e fs <;> simp [optOr, assocGet]
  · decide

/-- Claim C1 witness: the last-matching-column characterisation
evaluated on a concrete header list. -/
theorem claim_C1_witness :
    assocGet (columnMapping ["Apply", "Role"]) "role" =
      lastMatch "role" ["Apply", "Role"] :=
  claim_C1_amended.1 ["Apply", "Role"] "role"

/-- Claim C2: merge_jobs keeps each lower-cased (company, role) key at
most once, retains for every key exactly the first record bearing it
in the concatenation of the two inputs, covers every input key, and
preserves relative order as a sublist of the concatenation. -/
theorem claim_C2 (s t : List Job) :
    ((merge_jobs s t).map jobKey).Nodup ∧
    (merge_jobs s t).Sublist (s ++ t) ∧
    (∀ j ∈ s ++ t, ∃ j0 ∈ merge_jobs s t, jobKey j0 = jobKey j) ∧
    (∀ j0 ∈ merge_jobs s t,
      (s ++ t).find? (fun j => decide (jobKey j = jobKey j0)) = some j0) := by
  rw [merge_jobs_eq_dedupNew]
  refine ⟨(dedupNew_keys_nodup (s ++ t) []).1, dedupNew_sublist (s ++ t) [],
    ?_, ?_⟩
  · intro j hj
    cases dedupNew_covers (s ++ t) [] j hj with
    | inl hmem => simp at hmem
    | inr hex => exact hex
  · intro j0 hj0
    exact (dedupNew_first (s ++ t) [] j0 hj0).2

/-- Claim C2 witness: on a sheet list holding Acme and a SimplifyJobs
list holding a case-variant duplicate of Acme plus one other job, the
record retained for the Acme key is the sheet record, the first one
bearing that key in the concatenation. -/
theorem claim_C2_witness :
    ([jobSheet] ++ [jobDup, jobOther]).find?
      (fun j => decide (jobKey j = jobKey jobSheet)) = some jobSheet :=
  (claim_C2 [jobSheet] [jobDup, jobOther]).2.2.2 jobSheet (by decide)

/-- Claim C3 names a real code bug: a CSV body whose data row has
fewer cells than the header makes csv.DictReader bind the missing
columns to None, row.get then returns None, and None.strip() raises
AttributeError, which the surrounding try block (catching only
request errors) does not stop, so main terminates with an unhandled
exception instead of degrading to an empty contribution. -/
theorem claim_C3_bug :
    parse_csv [["Company", "Role"], ["Acme"]] =
      Except.error PyErr.attributeError ∧
    mainModel envShortRow = Except.error PyErr.attributeError :=
  ⟨rfl, rfl⟩

/-- Claim C4 is refuted: no URL is required by the code; with the
sheet URL absent and the other source contributing one record, the run
completes with exit code 0 and writes the document, whereas the claim
predicts a nonzero exit for absent required configuration. -/
theorem claim_C4_counterexample :
    envAbsentUrl.sheetUrl = "" ∧
    mainModel envAbsentUrl = Except.ok outAbsentUrl ∧
    outAbsentUrl.exit = 0 :=
  ⟨rfl, rfl, rfl⟩

/-- Claim C4 (amended): whenever main terminates without an unhandled
exception its exit code is 0 or 1, and it is nonzero exactly when no
records were obtained from any source; absent configuration is not a
fatal case, because the sheet URL is optional and the other source URL
is a fixed constant. -/
theorem claim_C4_amended (env : Env) (out : MainOut)
    (h : mainModel env = Except.ok out) :
    (out.exit = 0 ∨ out.exit = 1) ∧
    (out.exit = 1 ↔ obtainedJobs env = Except.ok []) := by
  unfold mainModel at h
  cases hobt : obtainedJobs env with
  | error e =>
    rw [hobt] at h
    exact Except.noConfusion h
  | ok jobs =>
    rw [hobt] at h
    dsimp only at h
    by_cases hje : jobs = []
    · rw [if_pos hje] at h
      injection h with h1
      subst h1
      subst hje
      simp
    · rw [if_neg hje] at h
      by_cases hcmp : strip_timestamp (existingOf env) =
          strip_timestamp (generate_readme env.now jobs)
      · rw [if_pos hcmp] at h
        injection h with h1
        subst h1
        refine ⟨Or.inl rfl, fun h01 => absurd h01 (show ¬(0 = 1) by decide),
          fun hok => ?_⟩
        injection hok with hl
        exact absurd hl hje
      · rw [if_neg hcmp] at h
        injection h with h1
        subst h1
        refine ⟨Or.inl rfl, fun h01 => absurd h01 (show ¬(0 = 1) by decide),
          fun hok => ?_⟩
        injection hok with hl
        exact absurd hl hje

/-- Claim C4 witness: the amended statement applied to the run with no
sheet URL configured and one record from the other source. -/
theorem claim_C4_witness :
    (outAbsentUrl.exit = 0 ∨ outAbsentUrl.exit = 1) ∧
    (outAbsentUrl.exit = 1 ↔ obtainedJobs envAbsentUrl = Except.ok []) :=
  claim_C4_amended envAbsentUrl outAbsentUrl rfl

/-- Claim C5 is refuted: a pipe character inside the apply link is
interpolated unescaped into the anchor cell, so the rendered row holds
six unescaped cell separators instead of the five of a well-formed
four-cell row. -/
theorem claim_C5_counterexample :
    rawPipes (generate_table_row jobPipeLink).toList = 6 ∧
    pyIn "x|y" (generate_table_row jobPipeLink) = true := by
  constructor
  · rfl
  · rfl

/-- Claim C5 (amended): pipes inside company, role and location are
escaped, so for any job whose those fields hold no backslash and whose
apply link holds neither pipe nor backslash the rendered row has
exactly five unescaped cell separators, and a location A pipe B
renders with the escaped sequence; the apply link itself is not
escaped. -/
theorem claim_C5_amended :
    (∀ job, '\\' ∉ (dictGetD job "company" "").toList →
      '\\' ∉ (dictGetD job "role" "").toList →
      '\\' ∉ (dictGetD job "location" "").toList →
      '\\' ∉ (dictGetD job "apply link" "").toList →
      '|' ∉ (dictGetD job "apply link" "").toList →
      rawPipes (generate_table_row job).toList = 5) ∧
    generate_table_row jobLocPipe = "|  |  | A\\|B | â€” |\n" := by
  constructor
  · intro job hc hr hl ha1 ha2
    exact rawPipes_row job hc hr hl ha1 ha2
  · rfl

/-- Claim C5 witness: the amended statement applied to the sample job,
whose rendered row has exactly five unescaped separators. -/
theorem claim_C5_witness :
    rawPipes (generate_table_row theJob).toList = 5 :=
  claim_C5_amended.1 theJob (by decide) (by decide) (by decide)
    (by decide) (by decide)

/-- Claim C6 is refuted: the row loop checks the mojibake literal
sequences written in the source, not the genuine closed-position
glyph, so a table row containing the real closed-lock glyph passes
both skip checks and yields a record. -/
theorem claim_C6_counterexample :
    processRow "<td><a href=\"u\">🔒 A</a></td><td>R</td><td>L</td><td><a href=\"u\">x</a></td>" =
      some [("company", "🔒 A"), ("role", "R"), ("location", "L"),
        ("apply link", "u")] :=
  rfl

/-- Claim C6 (amended): a table row containing the closed-position
marker literal exactly as it is written in the source (a mojibake
character sequence rather than the genuine lock glyph), and a row
containing either of the source's continuation-marker literals, is
discarded by the row loop before any cell extraction and yields no
record; a row containing only the genuine glyph is not discarded. -/
theorem claim_C6 (row : String)
    (h : pyIn lockGlyph row = true ∨ pyIn arrowMid row = true ∨
      pyIn arrowCell row = true) :
    processRow row = none := by
  unfold processRow
  by_cases h1 : pyIn lockGlyph row = true
  · rw [if_pos h1]
  · rw [if_neg h1]
    rcases h with h | h | h
    · exact absurd h h1
    · rw [if_pos (by rw [h]; rfl)]
    · rw [if_pos (by rw [h, Bool.or_true])]

/-- Claim C6 witness: a row containing the source's closed-position
marker literal yields no record. -/
theorem claim_C6_witness :
    processRow "<td>ðŸ”’ Acme</td><td>r</td><td>l</td><td>a</td>" = none :=
  claim_C6 "<td>ðŸ”’ Acme</td><td>r</td><td>l</td><td>a</td>"
    (Or.inl (by decide))

/-- Claim C7: when the merged record list is non-empty and the
previous document equals the newly generated one after dropping every
line starting with the timestamp literal, main skips the write and
exits 0. -/
theorem claim_C7 (env : Env) (jobs : List Job)
    (hj : obtainedJobs env = Except.ok jobs) (hne : jobs ≠ [])
    (heq : strip_timestamp (existingOf env) =
      strip_timestamp (generate_readme env.now jobs)) :
    mainModel env = Except.ok { exit := 0, wrote := none } := by
  unfold mainModel
  rw [hj]
  dsimp only
  rw [if_neg hne, if_pos heq]

/-- Claim C7 witness: a run whose previous document was generated from
the same record with an older timestamp skips the write and exits
0. -/
theorem claim_C7_witness :
    mainModel envPrevSame = Except.ok { exit := 0, wrote := none } :=
  claim_C7 envPrevSame [theJob] rfl (by decide) rfl

/-- Claim C8 is refuted in its pipeline part: in a run where the
hardware section header is present but no table rows match and the
sheet contributes nothing, main exits 1 and writes nothing, so no
output document showing the placeholder is produced. -/
theorem claim_C8_counterexample :
    mainModel envHeaderNoRows = Except.ok { exit := 1, wrote := none } :=
  rfl

/-- Claim C8 (amended): the renderer emits the fixed no-listings
placeholder for an empty record list, but a run that obtains zero
records exits 1 before rendering, so the pipeline never writes a
document containing the placeholder. -/
theorem claim_C8_amended :
    (∀ now, generate_readme now [] =
      README_HEADER_PRE ++ now ++ README_HEADER_POST ++ NO_LISTINGS) ∧
    (∀ env, obtainedJobs env = Except.ok [] →
      mainModel env = Except.ok { exit := 1, wrote := none }) := by
  constructor
  · intro now
    rfl
  · intro env h
    unfold mainModel
    rw [h]
    dsimp only
    rw [if_pos rfl]

/-- Claim C8 witness: the amended statement applied to a run where
both sources fail and zero records are obtained. -/
theorem claim_C8_witness :
    mainModel envBothFail = Except.ok { exit := 1, wrote := none } :=
  claim_C8_amended.2 envBothFail rfl

/-- Claim C9: every record returned by the CSV parser (when it does
not raise), every record extracted from the SimplifyJobs table, and
hence every record in any merge of such lists binds company and role
to values that are non-empty after trimming. -/
theorem claim_C9 :
    (∀ rows out, parse_csv rows = Except.ok out → ∀ j ∈ out, validJob j) ∧
    (∀ fetched, ∀ j ∈ fetch_simplify fetched, validJob j) ∧
    (∀ s t, (∀ j ∈ s, validJob j) → (∀ j ∈ t, validJob j) →
      ∀ j ∈ merge_jobs s t, validJob j) := by
  refine ⟨?_, ?_, ?_⟩
  · intro rows out h j hj
    cases rows with
    | nil =>
      injection h with h1
      rw [← h1] at hj
      simp at hj
    | cons fn body =>
      exact parseBody_valid fn (columnMapping fn) body out h j hj
  · intro fetched j hj
    cases fetched with
    | error e => simp [fetch_simplify] at hj
    | ok readme =>
      simp only [fetch_simplify] at hj
      unfold parseSimplify at hj
      cases hfind : findSubIdx simplifyHeader.toList readme.toList with
      | none =>
        rw [hfind] at hj
        simp at hj
      | some i =>
        rw [hfind] at hj
        dsimp only at hj
        obtain ⟨r, hr, hpr⟩ := List.mem_filterMap.mp hj
        exact processRow_valid _ j hpr
  · intro s t hs ht j hj
    have hsub : j ∈ s ++ t :=
      (dedupNew_sublist (s ++ t) []).subset (merge_jobs_eq_dedupNew s t ▸ hj)
    cases List.mem_append.mp hsub with
    | inl hmem => exact hs j hmem
    | inr hmem => exact ht j hmem

/-- Claim C9 witness: the CSV part applied to a concrete two-column
sheet whose single record carries non-empty company and role. -/
theorem claim_C9_witness :
    validJob [("company", "Acme"), ("role", "Eng")] :=
  claim_C9.1 [["Company", "Role"], ["Acme", "Eng"]]
    [[("company", "Acme"), ("role", "Eng")]] rfl _ (by simp)

/-- Claim C10: a header column that is empty, or whitespace-only and
hence empty after normalisation, matches every canonical field because
the empty string is a substring of each canonical name, is assigned to
the first canonical field company, replaces a previous company
mapping, and the records of such a sheet read company from the blank
column. -/
theorem claim_C10 :
    (EXPECTED_COLUMNS.all (fun e => pyIn (normField "") e) = true) ∧
    normField "  " = "" ∧
    findExpected (normField "  ") EXPECTED_COLUMNS = some "company" ∧
    assocGet (columnMapping ["Company", ""]) "company" = some "" ∧
    parse_csv [["Company", "", "Role"], ["Acme", "X", "Eng"]] =
      Except.ok [[("company", "X"), ("role", "Eng")]] := by
  refine ⟨by decide, by decide, by decide, by decide, ?_⟩
  rfl

end UpdateReadme
